import Mathlib

/-!
Verification of the `promhttp` fasthttp exposition handler
(`prometheus/promhttp/fasthttp.go`).

The Go source is shallowly embedded: byte sequences are `List Nat`, metric
families are opaque identifiers, and the external collaborators (the registry
`Gather`, the exposition encoder `expfmt.Negotiate` / `Encode`, the gzip
compressor) are parameters of the pipeline function.  The pipeline
`FastHttpHandlerFor` is translated statement by statement from the source and
returns the observable effects of one exposition cycle: the committed response
or error response, the log lines emitted, and the buffer-pool acquire/release
counts.
-/

set_option autoImplicit false

namespace Promhttp

/-- Byte sequences (Go `[]byte` / buffer contents). -/
abbrev Bytes := List Nat

/-- Metric families are opaque to the pipeline: it only hands them to the
encoder.  We model them as opaque identifiers. -/
abbrev MetricFamily := Nat

/-- Modelled from the spec: the error-handling policy enumeration
(`ErrorHandling` is declared in a promhttp file outside the provided source;
the spec names the three policies Respond-with-HTTP-error,
Continue-and-suppress and Abort-with-fault). -/
inductive ErrorHandling where
  | HTTPErrorOnError
  | ContinueOnError
  | PanicOnError
deriving DecidableEq, Repr

/-- Modelled from the spec: the handler configuration surface
(`HandlerOpts` is declared in a promhttp file outside the provided source;
the spec lists `ErrorLog` (optional sink), `ErrorHandling`,
`DisableCompression`).  `errorLog = true` models a non-nil log sink. -/
structure HandlerOpts where
  errorLog : Bool
  errorHandling : ErrorHandling
  disableCompression : Bool
deriving DecidableEq, Repr

/-- Modelled from the spec: the `Content-Type` response header name
(constant declared outside the provided source). -/
def contentTypeHeader : String := "Content-Type"

/-- Modelled from the spec: the `Content-Length` response header name
(constant declared outside the provided source). -/
def contentLengthHeader : String := "Content-Length"

/-- Modelled from the spec: the `Content-Encoding` response header name
(constant declared outside the provided source). -/
def contentEncodingHeader : String := "Content-Encoding"

/-- Splitting loop of Go `strings.Split(s, ",")`: `acc` holds the current
segment reversed. -/
def splitCommaAux : List Char → List Char → List (List Char)
  | [], acc => [acc.reverse]
  | c :: cs, acc =>
    if c = ',' then acc.reverse :: splitCommaAux cs []
    else splitCommaAux cs (c :: acc)

/-- Go `strings.Split(s, ",")`: the comma-separated segments of `s` (the
empty string yields one empty segment, as in Go). -/
def splitComma (s : String) : List String :=
  (splitCommaAux s.toList []).map (fun cs => ⟨cs⟩)

/-- Go `unicode.IsSpace` on the ASCII range: space, tab, newline, vertical
tab, form feed, carriage return. -/
def isSpaceChar (c : Char) : Bool :=
  c = ' ' || c = '\t' || c = '\n' || c = '\x0b' || c = '\x0c' || c = '\r'

/-- Go `strings.TrimSpace`: drop leading and trailing white space. -/
def trimSpace (s : String) : String :=
  ⟨((s.toList.dropWhile isSpaceChar).reverse.dropWhile isSpaceChar).reverse⟩

/-- Go `strings.HasPrefix s pre`. -/
def hasPrefixStr (s pre : String) : Bool :=
  pre.toList.isPrefixOf s.toList

/-- `decorateFastHttpWriter` from the source, reduced to its decision:
whether a gzip writer wraps the sink (`Bool`) and the `Content-Encoding`
label.  The source splits the `Accept-Encoding` header on commas, trims each
part, and returns the gzip writer with label `"gzip"` on the first part equal
to `"gzip"` or starting with `"gzip;"`; otherwise (or when compression is
disabled) it returns the sink unchanged with an empty label. -/
def decorateFastHttpWriter (acceptEncoding : String) (compressionDisabled : Bool) :
    Bool × String :=
  if compressionDisabled then (false, "")
  else if (splitComma acceptEncoding).any
      (fun part => trimSpace part = "gzip" || hasPrefixStr (trimSpace part) "gzip;") then
    (true, "gzip")
  else (false, "")

/-- A byte is a valid MIME header token byte (Go
`textproto.validHeaderFieldByte`): alphanumerics and
`! # $ % & ' * + - . ^ _ \x60 | ~` (listed by code point below). -/
def validHeaderFieldChar (c : Char) : Bool :=
  c.isAlphanum ||
    [33, 35, 36, 37, 38, 39, 42, 43, 45, 46, 94, 95, 96, 124, 126].contains c.toNat

/-- The character-level canonicalisation loop of Go
`textproto.CanonicalMIMEHeaderKey`: upper-case a letter at the start or after
a hyphen, lower-case the rest. -/
def canonChars : Bool → List Char → List Char
  | _, [] => []
  | upper, c :: cs =>
    let d := if upper then c.toUpper else c.toLower
    d :: canonChars (d = '-') cs

/-- Go `textproto.CanonicalMIMEHeaderKey`: canonicalise a header key, or
return it unchanged if it contains a byte that is not a valid token byte. -/
def canonicalMIMEHeaderKey (s : String) : String :=
  if s.toList.all validHeaderFieldChar then ⟨canonChars true s.toList⟩ else s

/-- The abstract `http.Header` map: a finite map from header names to single
values, modelled as a function (Go's `http.Header` is a map; the pipeline
only ever reads it through `Get`-style lookups inside `expfmt.Negotiate`). -/
abbrev HeaderMap := String → Option String

/-- Go `http.Header.Set`: store `v` under the canonicalised `k`, replacing
any previous value. -/
def headerSet (h : HeaderMap) (k v : String) : HeaderMap :=
  fun q => if q = canonicalMIMEHeaderKey k then some v else h q

/-- The header-translation loop of `FastHttpHandlerFor`: visit all request
headers in order and `Set` each into a fresh `http.Header`. -/
def buildHeaderMap (reqHeaders : List (String × String)) : HeaderMap :=
  reqHeaders.foldl (fun h kv => headerSet h kv.1 kv.2) (fun _ => none)

/-- The observable terminal outcome of one exposition cycle.
`errorResp` is a `ctx.Error` call (body and status code; it carries no
success headers), `success` is the committed response (the headers set by
the handler, in order, and the body bytes handed to `ctx.Write`), and
`panicked` models the `panic(err)` exits of the fault-raising policy. -/
inductive Outcome where
  | errorResp (body : String) (status : Nat)
  | success (headers : List (String × String)) (body : Bytes)
  | panicked (msg : String)
deriving DecidableEq, Repr

/-- The observable effects of one exposition cycle: terminal outcome, the
log lines printed to the error log (in order), and how many pooled buffers
were acquired (`getBuf`) and released (`giveBuf`, via `defer`). -/
structure RunResult where
  outcome : Outcome
  logs : List String
  acquired : Nat
  released : Nat
deriving DecidableEq, Repr

/-- Response headers visible on the outcome: only a committed success
response carries handler-set headers (a `ctx.Error` response carries none
set by this handler). -/
def Outcome.responseHeaders : Outcome → List (String × String)
  | .success hs _ => hs
  | _ => []

/-- The per-family encoder behaviour: for each family, the bytes
`enc.Encode` writes to the decorated writer and the error it returns
(`none` on success).  This is the pipeline's view of the external
`expfmt` encoder. -/
abbrev EncodeFun := MetricFamily → Bytes × Option String

/-- Mutable state threaded through the encode loop: the bytes written to the
decorated writer so far, the `lastErr` variable, and the accumulated log
lines. -/
structure LoopState where
  written : Bytes
  lastErr : Option String
  logs : List String
deriving DecidableEq, Repr

/-- How the encode loop terminates: it runs off the end of the family list
(`done`), or an error-policy action exits early — `httpError` for the
`ctx.Error`-and-return of `HTTPErrorOnError`, `panicExit` for
`PanicOnError`. -/
inductive LoopExit where
  | done (st : LoopState)
  | httpError (st : LoopState) (e : String)
  | panicExit (st : LoopState) (e : String)
deriving DecidableEq, Repr

/-- The `for _, mf := range mfs` encode loop of `FastHttpHandlerFor`:
encode each family; on an error, record it in `lastErr`, log it if a sink is
configured, then dispatch on the policy (panic / continue / HTTP error). -/
def encodeLoop (opts : HandlerOpts) (enc : EncodeFun) :
    List MetricFamily → LoopState → LoopExit
  | [], st => .done st
  | mf :: rest, st =>
    let bs := (enc mf).1
    let st1 : LoopState := { st with written := st.written ++ bs }
    match (enc mf).2 with
    | none => encodeLoop opts enc rest st1
    | some e =>
      let st2 : LoopState :=
        { st1 with
          lastErr := some e
          logs := st1.logs ++
            (if opts.errorLog then ["error encoding metric family: " ++ e] else []) }
      match opts.errorHandling with
      | .PanicOnError => .panicExit st2 e
      | .ContinueOnError => encodeLoop opts enc rest st2
      | .HTTPErrorOnError => .httpError st2 e

/-- The tail of `FastHttpHandlerFor` after the gather-error handling: header
translation, `expfmt.Negotiate`, buffer acquisition, writer decoration, the
encode loop, the `io.Closer` finalisation (modelled by applying `compress`
to the written stream when a gzip writer was chosen), the empty-buffer
check, and the commit.  `negotiate` stands for `expfmt.Negotiate`,
`encodeF` for `expfmt.NewEncoder(writer, contentType).Encode`, and
`compress` for the gzip transform the closed `gzip.Writer` leaves in the
sink. -/
def runEncodeAndCommit (mfs : List MetricFamily)
    (reqHeaders : List (String × String)) (acceptEncoding : String)
    (opts : HandlerOpts) (negotiate : HeaderMap → String)
    (encodeF : String → EncodeFun) (compress : Bytes → Bytes)
    (logs0 : List String) : RunResult :=
  let header := buildHeaderMap reqHeaders
  let contentType := negotiate header
  let dec := decorateFastHttpWriter acceptEncoding opts.disableCompression
  match encodeLoop opts (encodeF contentType) mfs ⟨[], none, logs0⟩ with
  | .panicExit st e => ⟨.panicked e, st.logs, 1, 1⟩
  | .httpError st e =>
    ⟨.errorResp ("An error has occurred during metrics encoding:\n\n" ++ e) 500,
      st.logs, 1, 1⟩
  | .done st =>
    let buf := if dec.1 then compress st.written else st.written
    match st.lastErr with
    | some e =>
      if buf.length = 0 then
        ⟨.errorResp ("No metrics encoded, last error:\n\n" ++ e) 500, st.logs, 1, 1⟩
      else
        ⟨.success
          ([(contentTypeHeader, contentType),
            (contentLengthHeader, toString buf.length)] ++
            (if dec.2 ≠ "" then [(contentEncodingHeader, dec.2)] else []))
          buf, st.logs, 1, 1⟩
    | none =>
      ⟨.success
        ([(contentTypeHeader, contentType),
          (contentLengthHeader, toString buf.length)] ++
          (if dec.2 ≠ "" then [(contentEncodingHeader, dec.2)] else []))
        buf, st.logs, 1, 1⟩

/-- `FastHttpHandlerFor` from the source.  `gatherMfs` and `gatherErr` are
the two results of `reg.Gather()`; `reqHeaders` is the request-header list
in `VisitAll` order; `acceptEncoding` is what
`ctx.Request.Header.Peek("Accept-Encoding")` returns.  The gather-error
policy dispatch is translated first, then the shared tail
`runEncodeAndCommit`. -/
def FastHttpHandlerFor (gatherMfs : List MetricFamily) (gatherErr : Option String)
    (reqHeaders : List (String × String)) (acceptEncoding : String)
    (opts : HandlerOpts) (negotiate : HeaderMap → String)
    (encodeF : String → EncodeFun) (compress : Bytes → Bytes) : RunResult :=
  match gatherErr with
  | some err =>
    let logs := if opts.errorLog then ["error gathering metrics: " ++ err] else []
    match opts.errorHandling with
    | .PanicOnError => ⟨.panicked err, logs, 0, 0⟩
    | .ContinueOnError =>
      if gatherMfs.length = 0 then
        ⟨.errorResp ("No metrics gathered, last error:\n\n" ++ err) 500, logs, 0, 0⟩
      else
        runEncodeAndCommit gatherMfs reqHeaders acceptEncoding opts negotiate
          encodeF compress logs
    | .HTTPErrorOnError =>
      ⟨.errorResp ("An error has occurred during metrics gathering:\n\n" ++ err) 500,
        logs, 0, 0⟩
  | none =>
    runEncodeAndCommit gatherMfs reqHeaders acceptEncoding opts negotiate
      encodeF compress []

/-- The state carried by whichever exit the encode loop took. -/
def LoopExit.state : LoopExit → LoopState
  | .done st => st
  | .httpError st _ => st
  | .panicExit st _ => st

/-- The concatenation, in gathering order, of the bytes each family's
`Encode` call writes to the decorated writer. -/
def encodedBytes (enc : EncodeFun) (mfs : List MetricFamily) : Bytes :=
  (mfs.map (fun mf => (enc mf).1)).flatten

/-- The error of the last family whose `Encode` fails (`none` when every
family encodes cleanly): the value the `lastErr` variable holds after a loop
that visits every family. -/
def lastEncodeErr (enc : EncodeFun) : List MetricFamily → Option String
  | [] => none
  | mf :: rest =>
    match lastEncodeErr enc rest with
    | some e => some e
    | none => (enc mf).2

/-- The error of the first family whose `Encode` fails (`none` when every
family encodes cleanly). -/
def firstEncodeErr (enc : EncodeFun) : List MetricFamily → Option String
  | [] => none
  | mf :: rest =>
    match (enc mf).2 with
    | some e => some e
    | none => firstEncodeErr enc rest

/-- The encode errors the loop actually encounters, in order, given the
policy: under `ContinueOnError` every failing family is visited; under the
two aborting policies the loop stops at the first failure. -/
def encodeErrsSeen (eh : ErrorHandling) (enc : EncodeFun) :
    List MetricFamily → List String
  | [] => []
  | mf :: rest =>
    match (enc mf).2 with
    | none => encodeErrsSeen eh enc rest
    | some e =>
      match eh with
      | .ContinueOnError => e :: encodeErrsSeen eh enc rest
      | _ => [e]

/-- Whether the gather-error dispatch at the top of `FastHttpHandlerFor`
terminates the cycle before the encode loop runs: it does exactly when
`Gather` returned an error and the policy is fault-raising or
HTTP-error, or is `ContinueOnError` with an empty family list. -/
def gatherAborts (gatherErr : Option String) (gatherMfs : List MetricFamily)
    (opts : HandlerOpts) : Bool :=
  match gatherErr with
  | none => false
  | some _ =>
    match opts.errorHandling with
    | .PanicOnError => true
    | .HTTPErrorOnError => true
    | .ContinueOnError => gatherMfs.length = 0

/-- Under `ContinueOnError` the encode loop always runs to completion, and
its final state is determined compositionally: all bytes are written, the
last failing family's error is retained (falling back to the incoming
`lastErr`), and one log line per failing family is appended when a sink is
configured. -/
theorem encodeLoop_continue (opts : HandlerOpts) (enc : EncodeFun)
    (hp : opts.errorHandling = .ContinueOnError) :
    ∀ (mfs : List MetricFamily) (st : LoopState),
      encodeLoop opts enc mfs st =
        .done
          { written := st.written ++ encodedBytes enc mfs
            lastErr :=
              match lastEncodeErr enc mfs with
              | some e => some e
              | none => st.lastErr
            logs := st.logs ++
              (if opts.errorLog then
                (encodeErrsSeen opts.errorHandling enc mfs).map
                  (fun e => "error encoding metric family: " ++ e)
               else []) } := by
  intro mfs
  induction mfs with
  | nil =>
    intro st
    simp [encodeLoop, encodedBytes, lastEncodeErr, encodeErrsSeen]
  | cons mf rest ih =>
    intro st
    rw [encodeLoop]
    cases he : (enc mf).2 with
    | none =>
      rw [ih]
      cases hrest : lastEncodeErr enc rest <;>
        simp [encodedBytes, lastEncodeErr, encodeErrsSeen, he, hrest, List.append_assoc]
    | some e =>
      simp only [hp]
      rw [ih]
      cases hL : opts.errorLog <;>
        cases hrest : lastEncodeErr enc rest <;>
          simp [encodedBytes, lastEncodeErr, encodeErrsSeen, he, hp, hrest, hL,
            List.append_assoc]

/-- Under `HTTPErrorOnError`, the first failing family makes the loop exit
with the `ctx.Error`-and-return arm, carrying that family's error. -/
theorem encodeLoop_httpErr_first (opts : HandlerOpts) (enc : EncodeFun)
    (hp : opts.errorHandling = .HTTPErrorOnError) :
    ∀ (mfs : List MetricFamily) (st : LoopState) (e : String),
      firstEncodeErr enc mfs = some e →
      ∃ st2, encodeLoop opts enc mfs st = .httpError st2 e := by
  intro mfs
  induction mfs with
  | nil => intro st e h; simp [firstEncodeErr] at h
  | cons mf rest ih =>
    intro st e h
    rw [encodeLoop]
    cases he : (enc mf).2 with
    | none =>
      rw [firstEncodeErr, he] at h
      simpa using ih _ e h
    | some e1 =>
      rw [firstEncodeErr, he] at h
      cases h
      simp only [hp]
      exact ⟨_, rfl⟩

/-- When no family fails, the loop runs to completion with no new log line
and no `lastErr`, having written every family's bytes, under every policy. -/
theorem encodeLoop_no_error (opts : HandlerOpts) (enc : EncodeFun) :
    ∀ (mfs : List MetricFamily) (st : LoopState),
      firstEncodeErr enc mfs = none →
      encodeLoop opts enc mfs st =
        .done { st with written := st.written ++ encodedBytes enc mfs } := by
  intro mfs
  induction mfs with
  | nil => intro st _; simp [encodeLoop, encodedBytes]
  | cons mf rest ih =>
    intro st h
    rw [firstEncodeErr] at h
    rw [encodeLoop]
    cases he : (enc mf).2 with
    | none =>
      rw [he] at h
      rw [ih _ h]
      simp [encodedBytes, List.append_assoc]
    | some e1 => rw [he] at h; cases h

/-- The log lines accumulated by the encode loop, whatever exit it takes:
one line per encountered error when a sink is configured, none otherwise. -/
theorem encodeLoop_logs (opts : HandlerOpts) (enc : EncodeFun) :
    ∀ (mfs : List MetricFamily) (st : LoopState),
      ((encodeLoop opts enc mfs st).state).logs =
        st.logs ++
          (if opts.errorLog then
            (encodeErrsSeen opts.errorHandling enc mfs).map
              (fun e => "error encoding metric family: " ++ e)
           else []) := by
  intro mfs
  induction mfs with
  | nil => intro st; simp [encodeLoop, LoopExit.state, encodeErrsSeen]
  | cons mf rest ih =>
    intro st
    rw [encodeLoop]
    cases he : (enc mf).2 with
    | none =>
      rw [ih]
      simp [encodeErrsSeen, he]
    | some e =>
      cases hp : opts.errorHandling with
      | PanicOnError =>
        cases hL : opts.errorLog <;>
          simp [LoopExit.state, encodeErrsSeen, he, hp, hL]
      | HTTPErrorOnError =>
        cases hL : opts.errorLog <;>
          simp [LoopExit.state, encodeErrsSeen, he, hp, hL]
      | ContinueOnError =>
        simp only []
        rw [ih]
        cases hL : opts.errorLog <;>
          simp [encodeErrsSeen, he, hp, hL, List.append_assoc]

/-- `runEncodeAndCommit` acquires exactly one pooled buffer and releases
exactly one, on every exit path. -/
theorem runEncodeAndCommit_counts (mfs : List MetricFamily)
    (reqHeaders : List (String × String)) (acceptEncoding : String)
    (opts : HandlerOpts) (negotiate : HeaderMap → String)
    (encodeF : String → EncodeFun) (compress : Bytes → Bytes)
    (logs0 : List String) :
    (runEncodeAndCommit mfs reqHeaders acceptEncoding opts negotiate encodeF
        compress logs0).acquired = 1 ∧
    (runEncodeAndCommit mfs reqHeaders acceptEncoding opts negotiate encodeF
        compress logs0).released = 1 := by
  constructor <;>
    · unfold runEncodeAndCommit
      dsimp only
      repeat' split
      all_goals rfl

/-- The log lines `runEncodeAndCommit` reports are exactly those the encode
loop accumulated. -/
theorem runEncodeAndCommit_logs (mfs : List MetricFamily)
    (reqHeaders : List (String × String)) (acceptEncoding : String)
    (opts : HandlerOpts) (negotiate : HeaderMap → String)
    (encodeF : String → EncodeFun) (compress : Bytes → Bytes)
    (logs0 : List String) :
    (runEncodeAndCommit mfs reqHeaders acceptEncoding opts negotiate encodeF
        compress logs0).logs =
      ((encodeLoop opts (encodeF (negotiate (buildHeaderMap reqHeaders))) mfs
          ⟨[], none, logs0⟩).state).logs := by
  unfold runEncodeAndCommit
  dsimp only
  repeat' split
  all_goals simp_all [LoopExit.state]

/-- Shape of every committed success response of `runEncodeAndCommit`: the
headers are `Content-Type` (the negotiated format), `Content-Length` (the
decimal length of the committed body, i.e. of the buffer read only after the
finalize step), and `Content-Encoding` exactly when the encoding label is
non-empty; and when a gzip writer was chosen the body is an output of the
compressor (the finalized stream). -/
theorem runEncodeAndCommit_success_shape (mfs : List MetricFamily)
    (reqHeaders : List (String × String)) (acceptEncoding : String)
    (opts : HandlerOpts) (negotiate : HeaderMap → String)
    (encodeF : String → EncodeFun) (compress : Bytes → Bytes)
    (logs0 : List String) (hdrs : List (String × String)) (body : Bytes)
    (h : (runEncodeAndCommit mfs reqHeaders acceptEncoding opts negotiate encodeF
        compress logs0).outcome = .success hdrs body) :
    hdrs =
      [(contentTypeHeader, negotiate (buildHeaderMap reqHeaders)),
       (contentLengthHeader, toString body.length)] ++
        (if (decorateFastHttpWriter acceptEncoding opts.disableCompression).2 ≠ "" then
          [(contentEncodingHeader,
            (decorateFastHttpWriter acceptEncoding opts.disableCompression).2)]
         else []) ∧
    ((decorateFastHttpWriter acceptEncoding opts.disableCompression).1 = true →
      ∃ w, body = compress w) := by
  unfold runEncodeAndCommit at h
  dsimp only at h
  rcases hL : encodeLoop opts
      (encodeF (negotiate (buildHeaderMap reqHeaders))) mfs ⟨[], none, logs0⟩ with
    st | ⟨st, e⟩ | ⟨st, e⟩ <;> rw [hL] at h <;> dsimp only at h
  · rcases hE : st.lastErr with _ | e <;> rw [hE] at h <;> dsimp only at h
    · simp only [Outcome.success.injEq] at h
      obtain ⟨h1, h2⟩ := h
      subst h2
      refine ⟨?_, fun hg => ⟨st.written, ?_⟩⟩
      · rw [← h1]
      · rw [hg]
        simp
    · by_cases hb :
        (if (decorateFastHttpWriter acceptEncoding opts.disableCompression).1 then
          compress st.written else st.written).length = 0
      · rw [if_pos hb] at h; cases h
      · rw [if_neg hb] at h
        simp only [Outcome.success.injEq] at h
        obtain ⟨h1, h2⟩ := h
        subst h2
        refine ⟨?_, fun hg => ⟨st.written, ?_⟩⟩
        · rw [← h1]
        · rw [hg]
          simp
  · cases h
  · cases h

/-- When every family encodes cleanly there is no first error. -/
theorem firstEncodeErr_eq_none (enc : EncodeFun) :
    ∀ mfs : List MetricFamily, (∀ mf ∈ mfs, (enc mf).2 = none) →
      firstEncodeErr enc mfs = none := by
  intro mfs
  induction mfs with
  | nil => intro _; rfl
  | cons mf rest ih =>
    intro h
    rw [firstEncodeErr, h mf (List.mem_cons_self mf rest)]
    exact ih fun x hx => h x (List.mem_cons_of_mem mf hx)

/-- Under `ContinueOnError`, when some family failed and the buffer is still
empty after the finalize step, `runEncodeAndCommit` aborts with the
empty-buffer server error carrying the last error's text. -/
theorem runEncodeAndCommit_empty_buf_abort (mfs : List MetricFamily)
    (reqHeaders : List (String × String)) (acceptEncoding : String)
    (opts : HandlerOpts) (negotiate : HeaderMap → String)
    (encodeF : String → EncodeFun) (compress : Bytes → Bytes)
    (logs0 : List String) (e : String)
    (hPol : opts.errorHandling = .ContinueOnError)
    (hLast : lastEncodeErr (encodeF (negotiate (buildHeaderMap reqHeaders))) mfs = some e)
    (hEmpty :
      (if (decorateFastHttpWriter acceptEncoding opts.disableCompression).1 then
        compress (encodedBytes (encodeF (negotiate (buildHeaderMap reqHeaders))) mfs)
      else
        encodedBytes (encodeF (negotiate (buildHeaderMap reqHeaders))) mfs).length = 0) :
    (runEncodeAndCommit mfs reqHeaders acceptEncoding opts negotiate encodeF
        compress logs0).outcome =
      .errorResp ("No metrics encoded, last error:\n\n" ++ e) 500 := by
  unfold runEncodeAndCommit
  dsimp only
  rw [encodeLoop_continue opts _ hPol]
  dsimp only
  rw [hLast]
  dsimp only
  simp only [List.nil_append]
  rw [if_pos hEmpty]

/-- When every family encodes cleanly, `runEncodeAndCommit` commits the
success response: the finalized concatenation of all encoded bytes, with the
three response headers. -/
theorem runEncodeAndCommit_all_ok (mfs : List MetricFamily)
    (reqHeaders : List (String × String)) (acceptEncoding : String)
    (opts : HandlerOpts) (negotiate : HeaderMap → String)
    (encodeF : String → EncodeFun) (compress : Bytes → Bytes)
    (logs0 : List String)
    (hOk : ∀ mf ∈ mfs, ((encodeF (negotiate (buildHeaderMap reqHeaders))) mf).2 = none) :
    (runEncodeAndCommit mfs reqHeaders acceptEncoding opts negotiate encodeF
        compress logs0).outcome =
      .success
        ([(contentTypeHeader, negotiate (buildHeaderMap reqHeaders)),
          (contentLengthHeader,
            toString
              (if (decorateFastHttpWriter acceptEncoding opts.disableCompression).1 then
                compress (encodedBytes (encodeF (negotiate (buildHeaderMap reqHeaders))) mfs)
              else
                encodedBytes (encodeF (negotiate (buildHeaderMap reqHeaders))) mfs).length)] ++
          (if (decorateFastHttpWriter acceptEncoding opts.disableCompression).2 ≠ "" then
            [(contentEncodingHeader,
              (decorateFastHttpWriter acceptEncoding opts.disableCompression).2)]
           else []))
        (if (decorateFastHttpWriter acceptEncoding opts.disableCompression).1 then
          compress (encodedBytes (encodeF (negotiate (buildHeaderMap reqHeaders))) mfs)
        else
          encodedBytes (encodeF (negotiate (buildHeaderMap reqHeaders))) mfs) := by
  unfold runEncodeAndCommit
  dsimp only
  rw [encodeLoop_no_error opts _ mfs _ (firstEncodeErr_eq_none _ mfs hOk)]
  dsimp only
  simp only [List.nil_append]

/-- Under `HTTPErrorOnError`, the first failing family aborts
`runEncodeAndCommit` with the encoding server error carrying that error's
text, and no success headers. -/
theorem runEncodeAndCommit_first_error_aborts (mfs : List MetricFamily)
    (reqHeaders : List (String × String)) (acceptEncoding : String)
    (opts : HandlerOpts) (negotiate : HeaderMap → String)
    (encodeF : String → EncodeFun) (compress : Bytes → Bytes)
    (logs0 : List String) (e : String)
    (hPol : opts.errorHandling = .HTTPErrorOnError)
    (hFirst :
      firstEncodeErr (encodeF (negotiate (buildHeaderMap reqHeaders))) mfs = some e) :
    (runEncodeAndCommit mfs reqHeaders acceptEncoding opts negotiate encodeF
        compress logs0).outcome =
      .errorResp ("An error has occurred during metrics encoding:\n\n" ++ e) 500 := by
  obtain ⟨st2, hL⟩ := encodeLoop_httpErr_first opts _ hPol mfs ⟨[], none, logs0⟩ e hFirst
  unfold runEncodeAndCommit
  dsimp only
  rw [hL]

/-- Shape of every committed success response of the full handler: lifts
`runEncodeAndCommit_success_shape` over the gather-error dispatch. -/
theorem FastHttpHandlerFor_success_shape (gatherMfs : List MetricFamily)
    (gatherErr : Option String) (reqHeaders : List (String × String))
    (acceptEncoding : String) (opts : HandlerOpts) (negotiate : HeaderMap → String)
    (encodeF : String → EncodeFun) (compress : Bytes → Bytes)
    (hdrs : List (String × String)) (body : Bytes)
    (h : (FastHttpHandlerFor gatherMfs gatherErr reqHeaders acceptEncoding opts
        negotiate encodeF compress).outcome = .success hdrs body) :
    hdrs =
      [(contentTypeHeader, negotiate (buildHeaderMap reqHeaders)),
       (contentLengthHeader, toString body.length)] ++
        (if (decorateFastHttpWriter acceptEncoding opts.disableCompression).2 ≠ "" then
          [(contentEncodingHeader,
            (decorateFastHttpWriter acceptEncoding opts.disableCompression).2)]
         else []) ∧
    ((decorateFastHttpWriter acceptEncoding opts.disableCompression).1 = true →
      ∃ w, body = compress w) := by
  unfold FastHttpHandlerFor at h
  rcases gatherErr with _ | err
  · exact runEncodeAndCommit_success_shape _ _ _ _ _ _ _ _ _ _ h
  · dsimp only at h
    cases hp : opts.errorHandling with
    | PanicOnError => rw [hp] at h; cases h
    | HTTPErrorOnError => rw [hp] at h; cases h
    | ContinueOnError =>
      rw [hp] at h
      dsimp only at h
      by_cases hm : gatherMfs.length = 0
      · rw [if_pos hm] at h; cases h
      · rw [if_neg hm] at h
        exact runEncodeAndCommit_success_shape _ _ _ _ _ _ _ _ _ _ h

/-- A definition following the claim's words, for comparison with
`buildHeaderMap`: the value of the last request header visited whose
canonicalised name is `q` (`none` when no such header was visited). -/
def lastHeaderValue (reqHeaders : List (String × String)) (q : String) :
    Option String :=
  reqHeaders.foldl
    (fun acc kv => if canonicalMIMEHeaderKey kv.1 = q then some kv.2 else acc) none

/-- Generalised accumulator lemma relating the `http.Header`-building fold
to the last-value fold. -/
theorem buildHeaderMap_foldl_aux (q : String) :
    ∀ (hs : List (String × String)) (h0 : HeaderMap) (acc : Option String),
      h0 q = acc →
      (hs.foldl (fun h kv => headerSet h kv.1 kv.2) h0) q =
        hs.foldl
          (fun acc kv => if canonicalMIMEHeaderKey kv.1 = q then some kv.2 else acc)
          acc := by
  intro hs
  induction hs with
  | nil => intro h0 acc h; simpa using h
  | cons kv tl ih =>
    intro h0 acc h
    rw [List.foldl_cons, List.foldl_cons]
    apply ih
    rw [headerSet]
    by_cases hq : canonicalMIMEHeaderKey kv.1 = q
    · rw [if_pos hq, if_pos hq.symm]
    · rw [if_neg hq, if_neg (fun hh => hq hh.symm)]
      exact h

/-- With no gather error the handler is exactly the encode-and-commit tail
with no initial log lines. -/
theorem FastHttpHandlerFor_none (gatherMfs : List MetricFamily)
    (reqHeaders : List (String × String)) (acceptEncoding : String)
    (opts : HandlerOpts) (negotiate : HeaderMap → String)
    (encodeF : String → EncodeFun) (compress : Bytes → Bytes) :
    FastHttpHandlerFor gatherMfs none reqHeaders acceptEncoding opts negotiate
        encodeF compress =
      runEncodeAndCommit gatherMfs reqHeaders acceptEncoding opts negotiate
        encodeF compress [] := rfl

/-- With a gather error under `ContinueOnError` and a non-empty family list
the handler is the encode-and-commit tail, seeded with the gather log
line. -/
theorem FastHttpHandlerFor_continue_some (gatherMfs : List MetricFamily)
    (err : String) (reqHeaders : List (String × String)) (acceptEncoding : String)
    (opts : HandlerOpts) (negotiate : HeaderMap → String)
    (encodeF : String → EncodeFun) (compress : Bytes → Bytes)
    (hPol : opts.errorHandling = .ContinueOnError) (hNE : gatherMfs ≠ []) :
    FastHttpHandlerFor gatherMfs (some err) reqHeaders acceptEncoding opts negotiate
        encodeF compress =
      runEncodeAndCommit gatherMfs reqHeaders acceptEncoding opts negotiate
        encodeF compress
        (if opts.errorLog then ["error gathering metrics: " ++ err] else []) := by
  unfold FastHttpHandlerFor
  rw [hPol]
  dsimp only
  rw [if_neg (fun h0 => hNE (List.eq_nil_of_length_eq_zero h0))]

/-- C1: every exposition cycle that reaches the commit step commits a
response whose `Content-Type` is the negotiated format, whose
`Content-Length` is the byte length of the committed body — the buffer as
read only after the decorated writer's finalize/close ran, which is why,
when a gzip writer was chosen, the body (and hence the measured length) is
an output of the compressor — and whose `Content-Encoding` header is present
with the encoding label exactly when that label is non-empty. -/
theorem commit_sets_headers_after_finalize (gatherMfs : List MetricFamily)
    (gatherErr : Option String) (reqHeaders : List (String × String))
    (acceptEncoding : String) (opts : HandlerOpts) (negotiate : HeaderMap → String)
    (encodeF : String → EncodeFun) (compress : Bytes → Bytes)
    (hdrs : List (String × String)) (body : Bytes)
    (h : (FastHttpHandlerFor gatherMfs gatherErr reqHeaders acceptEncoding opts
        negotiate encodeF compress).outcome = .success hdrs body) :
    hdrs =
      [(contentTypeHeader, negotiate (buildHeaderMap reqHeaders)),
       (contentLengthHeader, toString body.length)] ++
        (if (decorateFastHttpWriter acceptEncoding opts.disableCompression).2 ≠ "" then
          [(contentEncodingHeader,
            (decorateFastHttpWriter acceptEncoding opts.disableCompression).2)]
         else []) ∧
    ((decorateFastHttpWriter acceptEncoding opts.disableCompression).1 = true →
      ∃ w, body = compress w) :=
  FastHttpHandlerFor_success_shape gatherMfs gatherErr reqHeaders acceptEncoding
    opts negotiate encodeF compress hdrs body h

/-- C6: with compression enabled, encoding negotiation splits the
`Accept-Encoding` value on commas, trims each token, and chooses gzip (with
label `"gzip"`) iff some token equals `"gzip"` or starts with `"gzip;"`; any
other value — including empty, `"deflate"`, `"identity"` — leaves the sink
unchanged with an empty label, and those are the only two possible
results. -/
theorem negotiateEncoding_gzip_iff_token :
    (∀ s : String,
      (decorateFastHttpWriter s false = (true, "gzip") ↔
        ∃ part ∈ splitComma s,
          trimSpace part = "gzip" ∨ hasPrefixStr (trimSpace part) "gzip;" = true)) ∧
    (∀ s : String,
      decorateFastHttpWriter s false = (true, "gzip") ∨
      decorateFastHttpWriter s false = (false, "")) ∧
    decorateFastHttpWriter "" false = (false, "") ∧
    decorateFastHttpWriter "deflate" false = (false, "") ∧
    decorateFastHttpWriter "identity" false = (false, "") ∧
    decorateFastHttpWriter "gzip" false = (true, "gzip") ∧
    decorateFastHttpWriter "gzip;q=0.5, deflate" false = (true, "gzip") ∧
    decorateFastHttpWriter " gzip , deflate" false = (true, "gzip") := by
  refine ⟨?_, ?_, by decide, by decide, by decide, by decide, by decide, by decide⟩
  · intro s
    unfold decorateFastHttpWriter
    by_cases hA : (splitComma s).any
        (fun part => trimSpace part = "gzip" || hasPrefixStr (trimSpace part) "gzip;") = true
    · rw [if_neg (by simp), if_pos hA]
      simp only [List.any_eq_true, Bool.or_eq_true, decide_eq_true_eq] at hA
      simpa using hA
    · rw [if_neg (by simp), if_neg hA]
      constructor
      · intro h0; cases h0
      · intro h0
        exfalso
        apply hA
        simp only [List.any_eq_true, Bool.or_eq_true, decide_eq_true_eq]
        simpa using h0
  · intro s
    unfold decorateFastHttpWriter
    by_cases hA : (splitComma s).any
        (fun part => trimSpace part = "gzip" || hasPrefixStr (trimSpace part) "gzip;") = true
    · rw [if_neg (by simp), if_pos hA]; exact Or.inl rfl
    · rw [if_neg (by simp), if_neg hA]; exact Or.inr rfl

/-- C7: with `DisableCompression = true` the decorator returns the sink
unchanged with an empty encoding label whatever the `Accept-Encoding`
header says, and consequently no committed response of the handler ever
carries a `Content-Encoding` header. -/
theorem disableCompression_forces_identity (gatherMfs : List MetricFamily)
    (gatherErr : Option String) (reqHeaders : List (String × String))
    (acceptEncoding : String) (opts : HandlerOpts) (negotiate : HeaderMap → String)
    (encodeF : String → EncodeFun) (compress : Bytes → Bytes)
    (hD : opts.disableCompression = true) :
    decorateFastHttpWriter acceptEncoding opts.disableCompression = (false, "") ∧
    ∀ kv ∈ ((FastHttpHandlerFor gatherMfs gatherErr reqHeaders acceptEncoding opts
        negotiate encodeF compress).outcome).responseHeaders,
      kv.1 ≠ contentEncodingHeader := by
  have hdec : decorateFastHttpWriter acceptEncoding opts.disableCompression =
      (false, "") := by
    rw [hD]; rfl
  refine ⟨hdec, ?_⟩
  cases hO : (FastHttpHandlerFor gatherMfs gatherErr reqHeaders acceptEncoding opts
      negotiate encodeF compress).outcome with
  | errorResp b s => intro kv hkv; simp [Outcome.responseHeaders] at hkv
  | panicked m => intro kv hkv; simp [Outcome.responseHeaders] at hkv
  | success hdrs body =>
    obtain ⟨h1, _⟩ := FastHttpHandlerFor_success_shape gatherMfs gatherErr reqHeaders
      acceptEncoding opts negotiate encodeF compress hdrs body hO
    intro kv hkv
    simp only [Outcome.responseHeaders] at hkv
    rw [h1, hdec] at hkv
    have hkv2 : kv = (contentTypeHeader, negotiate (buildHeaderMap reqHeaders)) ∨
        kv = (contentLengthHeader, toString body.length) := by
      simpa using hkv
    rcases hkv2 with rfl | rfl <;>
      simp [contentTypeHeader, contentLengthHeader, contentEncodingHeader]

/-- C9: on every execution path, the number of buffer releases equals the
number of acquisitions (the `defer giveBuf(buf)` runs on the normal commit,
on both encode-side error exits, and during panic unwinding; the gather-side
exits never acquire), and at most one buffer is acquired per cycle. -/
theorem buffer_released_exactly_once (gatherMfs : List MetricFamily)
    (gatherErr : Option String) (reqHeaders : List (String × String))
    (acceptEncoding : String) (opts : HandlerOpts) (negotiate : HeaderMap → String)
    (encodeF : String → EncodeFun) (compress : Bytes → Bytes) :
    (FastHttpHandlerFor gatherMfs gatherErr reqHeaders acceptEncoding opts
        negotiate encodeF compress).released =
      (FastHttpHandlerFor gatherMfs gatherErr reqHeaders acceptEncoding opts
        negotiate encodeF compress).acquired ∧
    (FastHttpHandlerFor gatherMfs gatherErr reqHeaders acceptEncoding opts
        negotiate encodeF compress).acquired ≤ 1 := by
  rcases gatherErr with _ | err
  · rw [FastHttpHandlerFor_none]
    obtain ⟨ha, hr⟩ := runEncodeAndCommit_counts gatherMfs reqHeaders acceptEncoding
      opts negotiate encodeF compress []
    rw [ha, hr]
    exact ⟨rfl, Nat.le_refl 1⟩
  · unfold FastHttpHandlerFor
    cases hp : opts.errorHandling with
    | PanicOnError => exact ⟨rfl, Nat.zero_le 1⟩
    | HTTPErrorOnError => exact ⟨rfl, Nat.zero_le 1⟩
    | ContinueOnError =>
      dsimp only
      by_cases hm : gatherMfs.length = 0
      · rw [if_pos hm]
        exact ⟨rfl, Nat.zero_le 1⟩
      · rw [if_neg hm]
        obtain ⟨ha, hr⟩ := runEncodeAndCommit_counts gatherMfs reqHeaders
          acceptEncoding opts negotiate encodeF compress
          (if opts.errorLog then ["error gathering metrics: " ++ err] else [])
        rw [ha, hr]
        exact ⟨rfl, Nat.le_refl 1⟩

/-- C10: the header map handed to `expfmt.Negotiate` assigns each
(canonicalised) header name the value of the last request header visited
with that name; earlier duplicates are discarded, as the concrete
duplicate-`Accept` instance illustrates. -/
theorem header_translation_last_value_wins (reqHeaders : List (String × String))
    (q : String) :
    buildHeaderMap reqHeaders q = lastHeaderValue reqHeaders q ∧
    buildHeaderMap [("Accept", "text/plain"), ("accept", "application/json")]
        "Accept" = some "application/json" := by
  constructor
  · rw [buildHeaderMap, lastHeaderValue]
    exact buildHeaderMap_foldl_aux q reqHeaders _ none rfl
  · decide

/-- C2: under `ContinueOnError`, when some family's encode failed and the
buffer is still empty after the loop and the writer's finalize (whatever
compression scheme was negotiated), the cycle exits with the server-error
response carrying the last encode error's text instead of committing a
success response. -/
theorem continueOnError_empty_buffer_aborts (gatherMfs : List MetricFamily)
    (gatherErr : Option String) (reqHeaders : List (String × String))
    (acceptEncoding : String) (opts : HandlerOpts) (negotiate : HeaderMap → String)
    (encodeF : String → EncodeFun) (compress : Bytes → Bytes) (e : String)
    (hPol : opts.errorHandling = .ContinueOnError)
    (hProceed : gatherErr = none ∨ gatherMfs ≠ [])
    (hLast :
      lastEncodeErr (encodeF (negotiate (buildHeaderMap reqHeaders))) gatherMfs =
        some e)
    (hEmpty :
      (if (decorateFastHttpWriter acceptEncoding opts.disableCompression).1 then
        compress (encodedBytes (encodeF (negotiate (buildHeaderMap reqHeaders)))
          gatherMfs)
       else
        encodedBytes (encodeF (negotiate (buildHeaderMap reqHeaders)))
          gatherMfs).length = 0) :
    (FastHttpHandlerFor gatherMfs gatherErr reqHeaders acceptEncoding opts
        negotiate encodeF compress).outcome =
      .errorResp ("No metrics encoded, last error:\n\n" ++ e) 500 := by
  rcases gatherErr with _ | err
  · rw [FastHttpHandlerFor_none]
    exact runEncodeAndCommit_empty_buf_abort gatherMfs reqHeaders acceptEncoding
      opts negotiate encodeF compress [] e hPol hLast hEmpty
  · have hNE : gatherMfs ≠ [] := by
      rcases hProceed with h | h
      · simp at h
      · exact h
    rw [FastHttpHandlerFor_continue_some gatherMfs err reqHeaders acceptEncoding
      opts negotiate encodeF compress hPol hNE]
    exact runEncodeAndCommit_empty_buf_abort gatherMfs reqHeaders acceptEncoding
      opts negotiate encodeF compress _ e hPol hLast hEmpty

/-- C3: under `ContinueOnError`, a gather error with zero returned families
аborts with the "No metrics gathered" server error (no buffer ever
acquired), while a gather error with a non-empty family list proceeds: when
those families all encode cleanly the cycle commits a success response whose
body is exactly the finalized concatenation of the returned families'
encodings. -/
theorem continueOnError_gather_error_degraded (gatherMfs : List MetricFamily)
    (err : String) (reqHeaders : List (String × String)) (acceptEncoding : String)
    (opts : HandlerOpts) (negotiate : HeaderMap → String)
    (encodeF : String → EncodeFun) (compress : Bytes → Bytes)
    (hPol : opts.errorHandling = .ContinueOnError) :
    (gatherMfs = [] →
      FastHttpHandlerFor gatherMfs (some err) reqHeaders acceptEncoding opts
          negotiate encodeF compress =
        ⟨.errorResp ("No metrics gathered, last error:\n\n" ++ err) 500,
          if opts.errorLog then ["error gathering metrics: " ++ err] else [],
          0, 0⟩) ∧
    (gatherMfs ≠ [] →
      (∀ mf ∈ gatherMfs,
        ((encodeF (negotiate (buildHeaderMap reqHeaders))) mf).2 = none) →
      (FastHttpHandlerFor gatherMfs (some err) reqHeaders acceptEncoding opts
          negotiate encodeF compress).outcome =
        .success
          ([(contentTypeHeader, negotiate (buildHeaderMap reqHeaders)),
            (contentLengthHeader,
              toString
                (if (decorateFastHttpWriter acceptEncoding opts.disableCompression).1
                  then
                    compress (encodedBytes
                      (encodeF (negotiate (buildHeaderMap reqHeaders))) gatherMfs)
                  else
                    encodedBytes (encodeF (negotiate (buildHeaderMap reqHeaders)))
                      gatherMfs).length)] ++
            (if (decorateFastHttpWriter acceptEncoding opts.disableCompression).2 ≠ ""
              then
                [(contentEncodingHeader,
                  (decorateFastHttpWriter acceptEncoding opts.disableCompression).2)]
              else []))
          (if (decorateFastHttpWriter acceptEncoding opts.disableCompression).1 then
            compress (encodedBytes (encodeF (negotiate (buildHeaderMap reqHeaders)))
              gatherMfs)
          else
            encodedBytes (encodeF (negotiate (buildHeaderMap reqHeaders)))
              gatherMfs)) := by
  constructor
  · intro hNil
    subst hNil
    unfold FastHttpHandlerFor
    rw [hPol]
    rfl
  · intro hNE hOk
    rw [FastHttpHandlerFor_continue_some gatherMfs err reqHeaders acceptEncoding
      opts negotiate encodeF compress hPol hNE]
    exact runEncodeAndCommit_all_ok gatherMfs reqHeaders acceptEncoding opts
      negotiate encodeF compress _ hOk

/-- C4: under `HTTPErrorOnError`, a gather error immediately aborts with the
gathering server error (before any buffer is acquired and before any success
header is set), and with no gather error the first family whose encode fails
aborts with the encoding server error; in both cases the outcome carries no
success headers and no partial metric data. -/
theorem httpErrorOnError_aborts_on_any_error (gatherMfs : List MetricFamily)
    (gatherErr : Option String) (reqHeaders : List (String × String))
    (acceptEncoding : String) (opts : HandlerOpts) (negotiate : HeaderMap → String)
    (encodeF : String → EncodeFun) (compress : Bytes → Bytes)
    (hPol : opts.errorHandling = .HTTPErrorOnError) :
    (∀ err, gatherErr = some err →
      FastHttpHandlerFor gatherMfs gatherErr reqHeaders acceptEncoding opts
          negotiate encodeF compress =
        ⟨.errorResp ("An error has occurred during metrics gathering:\n\n" ++ err)
            500,
          if opts.errorLog then ["error gathering metrics: " ++ err] else [],
          0, 0⟩) ∧
    (∀ e, gatherErr = none →
      firstEncodeErr (encodeF (negotiate (buildHeaderMap reqHeaders))) gatherMfs =
        some e →
      (FastHttpHandlerFor gatherMfs gatherErr reqHeaders acceptEncoding opts
          negotiate encodeF compress).outcome =
        .errorResp ("An error has occurred during metrics encoding:\n\n" ++ e) 500 ∧
      ((FastHttpHandlerFor gatherMfs gatherErr reqHeaders acceptEncoding opts
          negotiate encodeF compress).outcome).responseHeaders = []) := by
  constructor
  · intro err hErr
    subst hErr
    unfold FastHttpHandlerFor
    rw [hPol]
  · intro e hNone hFirst
    subst hNone
    rw [FastHttpHandlerFor_none]
    have hAb := runEncodeAndCommit_first_error_aborts gatherMfs reqHeaders
      acceptEncoding opts negotiate encodeF compress [] e hPol hFirst
    refine ⟨hAb, ?_⟩
    rw [hAb]
    rfl

/-- C5 counterexample: the claim says the server-error body EQUALS the
gather error's message; at this concrete input the body is the fixed
"An error has occurred during metrics gathering:" preamble followed by the
message, which differs from the bare message. -/
theorem gather_error_body_not_bare_message :
    (FastHttpHandlerFor [] (some "collector broke") [] ""
        ⟨false, .HTTPErrorOnError, false⟩ (fun _ => "text/plain")
        (fun _ _ => ([], none)) (fun w => w)).outcome =
      .errorResp ("An error has occurred during metrics gathering:\n\ncollector broke")
        500 ∧
    "An error has occurred during metrics gathering:\n\ncollector broke" ≠
      "collector broke" := by
  exact ⟨rfl, by decide⟩

/-- C5 (amended): when Gather returns an empty list with an error under
`HTTPErrorOnError`, the handler responds with the server error whose body is
the fixed gathering preamble followed by the error's message (it contains,
but does not equal, the message), and sets no response headers — in
particular no `Content-Type`. -/
theorem gather_error_http_error_body_prefixed (gatherMfs : List MetricFamily)
    (gatherErr : Option String) (err : String)
    (reqHeaders : List (String × String)) (acceptEncoding : String)
    (opts : HandlerOpts) (negotiate : HeaderMap → String)
    (encodeF : String → EncodeFun) (compress : Bytes → Bytes)
    (hPol : opts.errorHandling = .HTTPErrorOnError)
    (hErr : gatherErr = some err) (hNil : gatherMfs = []) :
    (FastHttpHandlerFor gatherMfs gatherErr reqHeaders acceptEncoding opts
        negotiate encodeF compress).outcome =
      .errorResp ("An error has occurred during metrics gathering:\n\n" ++ err)
        500 ∧
    ((FastHttpHandlerFor gatherMfs gatherErr reqHeaders acceptEncoding opts
        negotiate encodeF compress).outcome).responseHeaders = [] := by
  subst hErr
  subst hNil
  unfold FastHttpHandlerFor
  rw [hPol]
  exact ⟨rfl, rfl⟩

/-- C8: with a log sink configured, every error the cycle encounters is
logged exactly once with its kind-specific prefix, under every policy: a
gather error contributes the single "error gathering metrics:" line, and
each encode error the loop reaches (all of them under `ContinueOnError`, up
to the first under the aborting policies, none when the gather dispatch
already aborted the cycle) contributes one
"error encoding metric family:" line, in order. -/
theorem errors_logged_with_kind_prefix (gatherMfs : List MetricFamily)
    (gatherErr : Option String) (reqHeaders : List (String × String))
    (acceptEncoding : String) (opts : HandlerOpts) (negotiate : HeaderMap → String)
    (encodeF : String → EncodeFun) (compress : Bytes → Bytes)
    (hLog : opts.errorLog = true) :
    (FastHttpHandlerFor gatherMfs gatherErr reqHeaders acceptEncoding opts
        negotiate encodeF compress).logs =
      (match gatherErr with
        | some e => ["error gathering metrics: " ++ e]
        | none => []) ++
      (if gatherAborts gatherErr gatherMfs opts then []
       else
        (encodeErrsSeen opts.errorHandling
            (encodeF (negotiate (buildHeaderMap reqHeaders))) gatherMfs).map
          (fun e => "error encoding metric family: " ++ e)) := by
  rcases gatherErr with _ | err
  · rw [FastHttpHandlerFor_none, runEncodeAndCommit_logs, encodeLoop_logs]
    simp [gatherAborts, hLog]
  · cases hp : opts.errorHandling with
    | PanicOnError =>
      unfold FastHttpHandlerFor
      rw [hp]
      simp [gatherAborts, hp, hLog]
    | HTTPErrorOnError =>
      unfold FastHttpHandlerFor
      rw [hp]
      simp [gatherAborts, hp, hLog]
    | ContinueOnError =>
      by_cases hm : gatherMfs.length = 0
      · unfold FastHttpHandlerFor
        rw [hp]
        dsimp only
        rw [if_pos hm]
        simp [gatherAborts, hp, hLog, hm]
      · rw [FastHttpHandlerFor_continue_some gatherMfs err reqHeaders
          acceptEncoding opts negotiate encodeF compress hp
          (fun h0 => hm (by rw [h0]; rfl))]
        rw [runEncodeAndCommit_logs, encodeLoop_logs]
        simp [gatherAborts, hp, hLog, hm]

/-- Witness for C1: a concrete gzip cycle whose hypothesis (a committed
success outcome) is discharged by computation. -/
theorem commit_sets_headers_after_finalize_witness :
    (FastHttpHandlerFor [7] none [("Accept", "text/plain")] "gzip"
        ⟨false, .ContinueOnError, false⟩ (fun _ => "text/plain; version=0.0.4")
        (fun _ _ => ([10, 20], none)) (fun w => 31 :: 139 :: w)).outcome =
      .success
        [("Content-Type", "text/plain; version=0.0.4"), ("Content-Length", "4"),
         ("Content-Encoding", "gzip")]
        [31, 139, 10, 20] ∧
    ([("Content-Type", "text/plain; version=0.0.4"), ("Content-Length", "4"),
      ("Content-Encoding", "gzip")] =
      [(contentTypeHeader, "text/plain; version=0.0.4"),
       (contentLengthHeader, toString (List.length ([31, 139, 10, 20] : Bytes)))] ++
        (if (decorateFastHttpWriter "gzip" false).2 ≠ "" then
          [(contentEncodingHeader, (decorateFastHttpWriter "gzip" false).2)]
         else []) ∧
     ((decorateFastHttpWriter "gzip" false).1 = true →
       ∃ w, ([31, 139, 10, 20] : Bytes) = 31 :: 139 :: w)) :=
  ⟨rfl,
    commit_sets_headers_after_finalize [7] none [("Accept", "text/plain")] "gzip"
      ⟨false, .ContinueOnError, false⟩ (fun _ => "text/plain; version=0.0.4")
      (fun _ _ => ([10, 20], none)) (fun w => 31 :: 139 :: w) _ _ rfl⟩

/-- Witness for C2: one family whose encode fails writing nothing, gzip
negotiated, identity compressor — the buffer is empty after finalize and the
cycle aborts with the last error's text. -/
theorem continueOnError_empty_buffer_aborts_witness :
    (⟨false, .ContinueOnError, false⟩ : HandlerOpts).errorHandling =
      .ContinueOnError ∧
    ((none : Option String) = none ∨ ([0] : List MetricFamily) ≠ []) ∧
    lastEncodeErr (fun _ => (([] : Bytes), some "boom")) [0] = some "boom" ∧
    (if (decorateFastHttpWriter "gzip" false).1 then
      (fun (w : Bytes) => w) (encodedBytes (fun _ => (([] : Bytes), some "boom")) [0])
     else encodedBytes (fun _ => (([] : Bytes), some "boom")) [0]).length = 0 ∧
    (FastHttpHandlerFor [0] none [] "gzip" ⟨false, .ContinueOnError, false⟩
        (fun _ => "ct") (fun _ _ => ([], some "boom")) (fun w => w)).outcome =
      .errorResp "No metrics encoded, last error:\n\nboom" 500 :=
  ⟨rfl, Or.inl rfl, rfl, rfl,
    continueOnError_empty_buffer_aborts [0] none [] "gzip"
      ⟨false, .ContinueOnError, false⟩ (fun _ => "ct")
      (fun _ _ => ([], some "boom")) (fun w => w) "boom" rfl (Or.inl rfl) rfl rfl⟩

/-- Witness for C3: a gather error with zero returned families under
`ContinueOnError` aborts with the "No metrics gathered" server error and no
buffer acquisition. -/
theorem continueOnError_gather_error_degraded_witness :
    (⟨true, .ContinueOnError, false⟩ : HandlerOpts).errorHandling =
      .ContinueOnError ∧
    ((([] : List MetricFamily) = [] →
      FastHttpHandlerFor [] (some "gather failed") [] ""
          ⟨true, .ContinueOnError, false⟩ (fun _ => "ct") (fun _ _ => ([], none))
          (fun w => w) =
        ⟨.errorResp "No metrics gathered, last error:\n\ngather failed" 500,
          ["error gathering metrics: gather failed"], 0, 0⟩) ∧
     (([] : List MetricFamily) ≠ [] →
      (∀ mf ∈ ([] : List MetricFamily), ((fun _ => (([] : Bytes), (none : Option String))) mf).2 = none) →
      (FastHttpHandlerFor [] (some "gather failed") [] ""
          ⟨true, .ContinueOnError, false⟩ (fun _ => "ct") (fun _ _ => ([], none))
          (fun w => w)).outcome =
        .success
          [("Content-Type", "ct"), ("Content-Length", "0")]
          ([] : Bytes))) :=
  ⟨rfl,
    continueOnError_gather_error_degraded [] "gather failed" [] ""
      ⟨true, .ContinueOnError, false⟩ (fun _ => "ct") (fun _ _ => ([], none))
      (fun w => w) rfl⟩

/-- Witness for C4: a gather error under `HTTPErrorOnError` at a concrete
input (the encode part of the conclusion is instantiated alongside). -/
theorem httpErrorOnError_aborts_on_any_error_witness :
    (⟨true, .HTTPErrorOnError, false⟩ : HandlerOpts).errorHandling =
      .HTTPErrorOnError ∧
    ((∀ err, (some "ge" : Option String) = some err →
      FastHttpHandlerFor [4] (some "ge") [] "" ⟨true, .HTTPErrorOnError, false⟩
          (fun _ => "ct") (fun _ _ => ([1], some "enc err")) (fun w => w) =
        ⟨.errorResp ("An error has occurred during metrics gathering:\n\n" ++ err)
            500,
          ["error gathering metrics: " ++ err], 0, 0⟩) ∧
     (∀ e, (some "ge" : Option String) = none →
      firstEncodeErr (fun _ => (([1] : Bytes), some "enc err")) [4] = some e →
      (FastHttpHandlerFor [4] (some "ge") [] "" ⟨true, .HTTPErrorOnError, false⟩
          (fun _ => "ct") (fun _ _ => ([1], some "enc err")) (fun w => w)).outcome =
        .errorResp ("An error has occurred during metrics encoding:\n\n" ++ e) 500 ∧
      ((FastHttpHandlerFor [4] (some "ge") [] "" ⟨true, .HTTPErrorOnError, false⟩
          (fun _ => "ct") (fun _ _ => ([1], some "enc err"))
          (fun w => w)).outcome).responseHeaders = [])) :=
  ⟨rfl,
    httpErrorOnError_aborts_on_any_error [4] (some "ge") [] ""
      ⟨true, .HTTPErrorOnError, false⟩ (fun _ => "ct")
      (fun _ _ => ([1], some "enc err")) (fun w => w) rfl⟩

/-- Witness for C5 (amended): Gather returns `(nil, err)` under the
HTTP-error policy; the body is the preamble plus the message and no header
is set. -/
theorem gather_error_http_error_body_prefixed_witness :
    (⟨false, .HTTPErrorOnError, false⟩ : HandlerOpts).errorHandling =
      .HTTPErrorOnError ∧
    (some "boom" : Option String) = some "boom" ∧
    ([] : List MetricFamily) = [] ∧
    ((FastHttpHandlerFor [] (some "boom") [] "" ⟨false, .HTTPErrorOnError, false⟩
        (fun _ => "x") (fun _ _ => ([], none)) (fun w => w)).outcome =
      .errorResp ("An error has occurred during metrics gathering:\n\n" ++ "boom")
        500 ∧
    ((FastHttpHandlerFor [] (some "boom") [] "" ⟨false, .HTTPErrorOnError, false⟩
        (fun _ => "x") (fun _ _ => ([], none)) (fun w => w)).outcome).responseHeaders =
      []) :=
  ⟨rfl, rfl, rfl,
    gather_error_http_error_body_prefixed [] (some "boom") "boom" [] ""
      ⟨false, .HTTPErrorOnError, false⟩ (fun _ => "x") (fun _ _ => ([], none))
      (fun w => w) rfl rfl rfl⟩

/-- Witness for C7: compression disabled with a gzip-accepting client; the
committed response carries no `Content-Encoding` header. -/
theorem disableCompression_forces_identity_witness :
    (⟨false, .HTTPErrorOnError, true⟩ : HandlerOpts).disableCompression = true ∧
    (decorateFastHttpWriter "gzip"
        (⟨false, .HTTPErrorOnError, true⟩ : HandlerOpts).disableCompression =
      (false, "") ∧
    ∀ kv ∈ ((FastHttpHandlerFor [2] none [] "gzip"
        ⟨false, .HTTPErrorOnError, true⟩ (fun _ => "ct") (fun _ _ => ([9], none))
        (fun w => 0 :: w)).outcome).responseHeaders,
      kv.1 ≠ contentEncodingHeader) :=
  ⟨rfl,
    disableCompression_forces_identity [2] none [] "gzip"
      ⟨false, .HTTPErrorOnError, true⟩ (fun _ => "ct") (fun _ _ => ([9], none))
      (fun w => 0 :: w) rfl⟩

/-- Witness for C8: a gather error plus one failing and one succeeding
family under `ContinueOnError` with a log sink: exactly the two prefixed
lines are logged, in order. -/
theorem errors_logged_with_kind_prefix_witness :
    (⟨true, .ContinueOnError, false⟩ : HandlerOpts).errorLog = true ∧
    (FastHttpHandlerFor [0, 1] (some "g") [] "" ⟨true, .ContinueOnError, false⟩
        (fun _ => "ct") (fun _ mf => if mf = 0 then ([], some "e0") else ([5], none))
        (fun w => w)).logs =
      ["error gathering metrics: g", "error encoding metric family: e0"] :=
  ⟨rfl,
    errors_logged_with_kind_prefix [0, 1] (some "g") [] ""
      ⟨true, .ContinueOnError, false⟩ (fun _ => "ct")
      (fun _ mf => if mf = 0 then ([], some "e0") else ([5], none))
      (fun w => w) rfl⟩

end Promhttp
